import Mathlib

/-!
Verification of the Wav2Lip video inference engine
(`wav2lip-video/video_inference.py`, `wav2lip-video/utils.py`,
`wav2lip-video/config.py`).

Shallow embedding conventions:
* numpy/python integers are `ℕ`/`ℤ`; the video frame rate `fps` is the
  positive rational `fnum / fden`; floating point box coordinates, mask
  weights and pixel intermediates are exact rationals `ℚ`;
* python slices carry their negative-index/clamping semantics explicitly;
* fallible control flow is `Except`;
* the neural generator, the face detector, and image resizing are opaque
  parameters, as the design treats them (the engine's contract does not
  depend on their internals).

The file is organised as: all definitions first, then all theorems.
-/

namespace Wav2LipVideo

/-! ## Definitions: audio feature chunker

Embedding of the mel-chunking loop of
`Wav2LipVideoProcessor.process_video` (video_inference.py lines 305-317):

```
mel_idx_multiplier = 80. / fps
i = 0
while True:
    start_idx = int(i * mel_idx_multiplier)
    if start_idx + params['mel_step_size'] > len(mel[0]):
        mel_chunks.append(mel[:, len(mel[0]) - params['mel_step_size']:])
        break
    mel_chunks.append(mel[:, start_idx : start_idx + params['mel_step_size']])
    i += 1
```

A chunk is represented by the (start, width) of the column slice it takes
from the feature matrix of `L` columns.  With `fps = fnum / fden`,
`start_idx = int(i * 80 / fps)` is the natural-number floor division
`i * (80 * fden) / fnum` (see `melStartIdx_eq_floor`).  The `while True`
loop is written with an explicit iteration budget `melFuel` that provably
exceeds the index at which the loop breaks, so the definition renders the
loop faithfully.
-/

/-- A column slice of the mel feature matrix: `mel[:, start : start+width]`. -/
structure MelSlice where
  start : ℕ
  width : ℕ
deriving DecidableEq, Repr

instance : Inhabited MelSlice := ⟨⟨0, 0⟩⟩

/-- Effective start of the python slice `a[k:]` on a sequence of length `L`
(negative `k` counts from the end and is clamped at 0; positive `k` is
clamped at `L`). -/
def pySliceStart (L : ℕ) (k : ℤ) : ℕ :=
  if k < 0 then ((L : ℤ) + k).toNat else min L k.toNat

/-- The clamped final chunk `mel[:, len(mel[0]) - mel_step_size:]`. -/
def clampedChunk (L step : ℕ) : MelSlice :=
  ⟨pySliceStart L ((L : ℤ) - step), L - pySliceStart L ((L : ℤ) - step)⟩

/-- `start_idx = int(i * mel_idx_multiplier)` with
`mel_idx_multiplier = 80 / (fnum / fden)`. -/
def melStartIdx (fnum fden i : ℕ) : ℕ :=
  i * (80 * fden) / fnum

/-- The regular chunk emitted for loop index `i`:
`mel[:, start_idx : start_idx + mel_step_size]`. -/
def normalChunk (fnum fden step i : ℕ) : MelSlice :=
  ⟨melStartIdx fnum fden i, step⟩

/-- The break condition of the chunking loop at index `i`:
`start_idx + mel_step_size > len(mel[0])`. -/
def melOverflow (L step fnum fden i : ℕ) : Prop :=
  L < melStartIdx fnum fden i + step

instance (L step fnum fden i : ℕ) : Decidable (melOverflow L step fnum fden i) := by
  unfold melOverflow; infer_instance

/-- The chunking loop, starting at index `i`, with an iteration budget. -/
def melChunksAux (L step fnum fden : ℕ) : ℕ → ℕ → List MelSlice
  | 0, _ => []
  | fuel + 1, i =>
    if L < melStartIdx fnum fden i + step then
      [clampedChunk L step]
    else
      normalChunk fnum fden step i :: melChunksAux L step fnum fden fuel (i + 1)

/-- Iteration budget; the loop provably breaks at an index `< melFuel`
whenever `0 < fnum` and `0 < fden` (`melFuel_overflow`). -/
def melFuel (L fnum : ℕ) : ℕ :=
  fnum * (L + 1) + 1

/-- The list of mel chunks produced by the loop for a feature matrix of `L`
columns, window width `step = mel_step_size`, and frame rate
`fps = fnum / fden`. -/
def melChunks (L step fnum fden : ℕ) : List MelSlice :=
  melChunksAux L step fnum fden (melFuel L fnum) 0

/-! ## Definitions: face box temporal smoothing

Embedding of `get_smoothened_boxes` (utils.py lines 97-114):

```
for i in range(len(boxes)):
    if i + T > len(boxes):
        window = boxes[len(boxes) - T:]
    else:
        window = boxes[i : i + T]
    boxes[i] = np.mean(window, axis=0)
return boxes
```

The update is in place: `boxes[i]` is overwritten while later iterations
still read the array.  A box is the 4-vector `[x1, y1, x2, y2]` of
coordinates, modelled with exact rational entries; `np.mean(window, axis=0)`
is the coordinate-wise arithmetic mean. -/

/-- A face bounding box `[x1, y1, x2, y2]`. -/
structure Box where
  x1 : ℚ
  y1 : ℚ
  x2 : ℚ
  y2 : ℚ
deriving DecidableEq, Repr

instance : Inhabited Box := ⟨⟨0, 0, 0, 0⟩⟩

def boxAdd (a b : Box) : Box :=
  ⟨a.x1 + b.x1, a.y1 + b.y1, a.x2 + b.x2, a.y2 + b.y2⟩

def boxSum (l : List Box) : Box :=
  l.foldr boxAdd ⟨0, 0, 0, 0⟩

/-- `np.mean(window, axis=0)`: coordinate-wise arithmetic mean. -/
def boxMean (l : List Box) : Box :=
  ⟨(boxSum l).x1 / l.length, (boxSum l).y1 / l.length,
    (boxSum l).x2 / l.length, (boxSum l).y2 / l.length⟩

/-- Python slice `l[k:]` (a negative `k` counts from the end, clamped at 0). -/
def pyDropFrom {α : Type} (l : List α) (k : ℤ) : List α :=
  if k < 0 then l.drop ((l.length + k).toNat) else l.drop k.toNat

/-- The window read by iteration `i`: `boxes[len-T:]` when `i + T` overruns,
else `boxes[i : i+T]`. -/
def windowAt (boxes : List Box) (i T : ℕ) : List Box :=
  if boxes.length < i + T then pyDropFrom boxes ((boxes.length : ℤ) - T)
  else (boxes.drop i).take T

/-- One loop iteration: `boxes[i] = np.mean(window, axis=0)` (in place). -/
def smoothStep (T : ℕ) (boxes : List Box) (i : ℕ) : List Box :=
  boxes.set i (boxMean (windowAt boxes i T))

/-- utils.py `get_smoothened_boxes(boxes, T)`. -/
def get_smoothened_boxes (boxes : List Box) (T : ℕ) : List Box :=
  (List.range boxes.length).foldl (smoothStep T) boxes

/-- The state of the in-place loop after its first `j` iterations. -/
def smoothUpTo (boxes : List Box) (T j : ℕ) : List Box :=
  (List.range j).foldl (smoothStep T) boxes

/-- Concrete 6-frame box sequence used as witness/counterexample input for
the smoothing claims (x1-coordinates `0,0,0,0,0,60`). -/
def smoothCexBoxes : List Box :=
  [⟨0, 0, 0, 0⟩, ⟨0, 0, 0, 0⟩, ⟨0, 0, 0, 0⟩, ⟨0, 0, 0, 0⟩, ⟨0, 0, 0, 0⟩,
    ⟨60, 0, 0, 0⟩]

/-! ## Definitions: face localizer

Embedding of `Wav2LipVideoProcessor.detect_faces`
(video_inference.py lines 81-182).  The batched detector call is modelled by
an opaque per-frame detector `det : Img → Option DetRect` (the OOM retry
loop around the batching is modelled separately, see `retryAux`). -/

/-- A decoded video frame: height, width, and uint8 pixel values addressed
as (row, col). -/
structure Img where
  h : ℕ
  w : ℕ
  pix : ℕ → ℕ → ℕ

instance : Inhabited Img := ⟨⟨0, 0, fun _ _ => 0⟩⟩

/-- A raw detector rectangle (`rect[0..3] = x1, y1, x2, y2`). -/
structure DetRect where
  x1 : ℤ
  y1 : ℤ
  x2 : ℤ
  y2 : ℤ
deriving DecidableEq, Repr

instance : Inhabited DetRect := ⟨⟨0, 0, 0, 0⟩⟩

/-- `pads = [pady1, pady2, padx1, padx2]` (top, bottom, left, right). -/
structure Pads where
  pady1 : ℤ
  pady2 : ℤ
  padx1 : ℤ
  padx2 : ℤ
deriving DecidableEq, Repr

/-- The manual bounding box parameter `box = [y1, y2, x1, x2]`; it is active
when `box[0] != -1`. -/
structure ManualBox where
  y1 : ℤ
  y2 : ℤ
  x1 : ℤ
  x2 : ℤ
deriving DecidableEq, Repr

/-- Error taxonomy of the run (section 7 of the design). -/
inductive PipelineError where
  | invalidInput
  | invalidAudio
  | faceNotDetected
  | detectorOOM
  | muxError
deriving DecidableEq, Repr

/-- Lines 150-155: pad a detector rectangle and clamp it to the frame
bounds; the result is stored as `[x1, y1, x2, y2]` (integer arithmetic). -/
def clampRectZ (img : Img) (pads : Pads) (r : DetRect) : ℤ × ℤ × ℤ × ℤ :=
  (max 0 (r.x1 - pads.padx1), max 0 (r.y1 - pads.pady1),
    min (img.w : ℤ) (r.x2 + pads.padx2), min (img.h : ℤ) (r.y2 + pads.pady2))

/-- The padded/clamped box as stored in `detected_boxes`. -/
def clampRect (img : Img) (pads : Pads) (r : DetRect) : Box :=
  ⟨((clampRectZ img pads r).1 : ℚ), ((clampRectZ img pads r).2.1 : ℚ),
    ((clampRectZ img pads r).2.2.1 : ℚ), ((clampRectZ img pads r).2.2.2 : ℚ)⟩

/-- `image[y1:y2, x1:x2]` for a box whose stored coordinates are integral
(they are, in every run reaching a crop).  Crop contents are never inspected
by the properties below. -/
def cropImg (img : Img) (b : Box) : Img :=
  ⟨(b.y2.floor - b.y1.floor).toNat, (b.x2.floor - b.x1.floor).toNat,
    fun r c => img.pix (b.y1.floor.toNat + r) (b.x1.floor.toNat + c)⟩

/-- One face-detection result entry `[face_crop, (y1, y2, x1, x2)]`. -/
structure FaceResult where
  crop : Img
  y1 : ℚ
  y2 : ℚ
  x1 : ℚ
  x2 : ℚ

instance : Inhabited FaceResult := ⟨⟨default, 0, 0, 0, 0⟩⟩

/-- The coordinate tuple `(y1, y2, x1, x2)` of a detection result. -/
def FaceResult.coords (r : FaceResult) : ℚ × ℚ × ℚ × ℚ :=
  (r.y1, r.y2, r.x1, r.x2)

/-- Configuration of `detect_faces` (pads, nosmooth, box, static,
detect_every_n). -/
structure DetectParams where
  pads : Pads
  nosmooth : Bool
  box : ManualBox
  static : Bool
  everyN : ℕ

/-- Indices sampled by python `range(0, n, step)` (used for `step ≥ 1`). -/
def pyRangeStep (n step : ℕ) : List ℕ :=
  (List.range n).filter (fun k => k % step == 0)

/-- The frames actually passed to the detector (lines 103-112): frame 0 only
in static mode, every `N`-th frame in interval mode, else all frames. -/
def framesToDetect (frames : List Img) (static : Bool) (everyN : ℕ) : List Img :=
  if static then frames.take 1
  else if 1 < everyN then
    (pyRangeStep frames.length everyN).map (fun i => frames.getD i default)
  else frames

/-- The per-frame box assignment (lines 157-171): static mode replicates the
first detection; interval mode assigns `detected[min(i // N, len-1)]`;
otherwise boxes are the detections themselves. -/
def expandBoxes (frameCount : ℕ) (static : Bool) (everyN : ℕ)
    (detected : List Box) : List Box :=
  if static then List.replicate frameCount (detected.getD 0 default)
  else if 1 < everyN then
    (List.range frameCount).map
      (fun i => detected.getD (min (i / everyN) (detected.length - 1)) default)
  else detected

/-- `Wav2LipVideoProcessor.detect_faces` (lines 81-182), with the detector
as an opaque per-frame function.  A manual box (`box[0] != -1`) bypasses
detection entirely; otherwise any sampled frame without a detection aborts
with the face-not-detected error before boxes are built; smoothing applies
unless disabled or static. -/
def detect_faces (det : Img → Option DetRect) (p : DetectParams)
    (frames : List Img) : Except PipelineError (List FaceResult) :=
  if p.box.y1 ≠ -1 then
    .ok (frames.map (fun f =>
      ⟨cropImg f ⟨(p.box.x1 : ℚ), (p.box.y1 : ℚ), (p.box.x2 : ℚ), (p.box.y2 : ℚ)⟩,
        (p.box.y1 : ℚ), (p.box.y2 : ℚ), (p.box.x1 : ℚ), (p.box.x2 : ℚ)⟩))
  else
    let toDetect := framesToDetect frames p.static p.everyN
    let preds := toDetect.map det
    if preds.any (fun r => r.isNone) then
      .error .faceNotDetected
    else
      let detected := (preds.zip toDetect).map
        (fun pr => clampRect pr.2 p.pads (pr.1.getD default))
      let boxes0 := expandBoxes frames.length p.static p.everyN detected
      let boxes :=
        if ¬ p.nosmooth ∧ ¬ p.static then get_smoothened_boxes boxes0 5 else boxes0
      .ok ((frames.zip boxes).map
        (fun fb => ⟨cropImg fb.1 fb.2, fb.2.y1, fb.2.y2, fb.2.x1, fb.2.x2⟩))

/-- The box-coordinate invariant of the design's data model: clamped to the
frame bounds and nondegenerate. -/
def BoxOK (H W : ℕ) (b : Box) : Prop :=
  0 ≤ b.x1 ∧ b.x1 < b.x2 ∧ b.x2 ≤ (W : ℚ) ∧
    0 ≤ b.y1 ∧ b.y1 < b.y2 ∧ b.y2 ≤ (H : ℚ)

/-! ## Definitions: detector OOM retry loop

Embedding of the `while True` retry loop (video_inference.py lines 120-136):

```
while True:
    predictions = []
    try:
        for i in tqdm(range(0, len(frames_to_detect), batch_size), ...):
            ...
    except RuntimeError:
        if batch_size == 1:
            raise RuntimeError('Image too big ...')
        batch_size //= 2
        continue
    break
```

`oomAt b` is an opaque oracle saying whether running the whole detection
pass at batch size `b` raises a RuntimeError.  `retryAux` returns the
attempted batch sizes in order and whether detection eventually succeeded;
the iteration budget `bs` bounds the number of halvings. -/

def retryAux (oomAt : ℕ → Bool) : ℕ → ℕ → List ℕ × Bool
  | 0, _ => ([], false)
  | fuel + 1, bs =>
    if oomAt bs then
      if bs = 1 then ([1], false)
      else
        let r := retryAux oomAt fuel (bs / 2)
        (bs :: r.1, r.2)
    else ([bs], true)

/-- The attempted batch sizes (in order) and final success flag, starting at
batch size `bs0`. -/
def detectRetryTrace (oomAt : ℕ → Bool) (bs0 : ℕ) : List ℕ × Bool :=
  retryAux oomAt bs0 bs0

/-! ## Definitions: spectral feature values and the NaN check

A float value is modelled by its IEEE classification: an exact finite
rational, a NaN, or an infinity.  Line 299 checks
`np.isnan(mel.reshape(-1)).sum() > 0`. -/

inductive FVal where
  | val (q : ℚ)
  | nan
  | inf
  | ninf
deriving DecidableEq, Repr

def FVal.isNaN : FVal → Bool
  | .nan => true
  | _ => false

def FVal.isFinite : FVal → Bool
  | .val _ => true
  | _ => false

/-- `np.isnan(mel.reshape(-1)).sum() > 0` (video_inference.py line 299). -/
def melHasNaN (mel : List (List FVal)) : Bool :=
  mel.any (fun row => row.any FVal.isNaN)

/-! ## Definitions: frame compositor

Embedding of the blending code (video_inference.py lines 376-397):

```
mask = np.ones((y2 - y1, x2 - x1, 3), dtype=np.float32)
feather_amount = min(15, (y2 - y1) // 10)
if feather_amount > 0:
    mask[:feather_amount, :] *= np.linspace(0, 1, feather_amount)[:, None, None]
    mask[-feather_amount:, :] *= np.linspace(1, 0, feather_amount)[:, None, None]
    mask[:, :feather_amount] *= np.linspace(0, 1, feather_amount)[None, :, None]
    mask[:, -feather_amount:] *= np.linspace(1, 0, feather_amount)[None, :, None]
original_face = f[y1:y2, x1:x2].astype(np.float32)
blended = (p.astype(np.float32) * mask + original_face * (1 - mask)).astype(np.uint8)
f[y1:y2, x1:x2] = blended
```
-/

/-- `feather_amount = min(15, (y2 - y1) // 10)`. -/
def featherAmount (boxH : ℕ) : ℕ :=
  min 15 (boxH / 10)

/-- `np.linspace(0, 1, n)[k]` (numpy yields `[0.0]` for `n = 1`). -/
def lin01 (n k : ℕ) : ℚ :=
  if n = 1 then 0 else (k : ℚ) / ((n : ℚ) - 1)

/-- `np.linspace(1, 0, n)[k]` (numpy yields `[1.0]` for `n = 1`). -/
def lin10 (n k : ℕ) : ℚ :=
  if n = 1 then 1 else 1 - (k : ℚ) / ((n : ℚ) - 1)

/-- The feathered blend-mask weight at (r, c) in a box of size
`boxH × boxW`: the product of the four edge ramps that apply to the pixel
(all ones when `feather_amount = 0`). -/
def maskWeight (boxH boxW r c : ℕ) : ℚ :=
  if featherAmount boxH = 0 then 1
  else
    (if r < featherAmount boxH then lin01 (featherAmount boxH) r else 1) *
    (if boxH - featherAmount boxH ≤ r then
      lin10 (featherAmount boxH) (r - (boxH - featherAmount boxH)) else 1) *
    (if c < featherAmount boxH then lin01 (featherAmount boxH) c else 1) *
    (if boxW - featherAmount boxH ≤ c then
      lin10 (featherAmount boxH) (c - (boxW - featherAmount boxH)) else 1)

/-- Truncation toward zero (python/numpy float → integer conversion). -/
def ftrunc (q : ℚ) : ℤ :=
  if 0 ≤ q then ⌊q⌋ else ⌈q⌉

/-- `np.float32 → np.uint8` conversion: truncate, wrap modulo 256. -/
def toU8 (q : ℚ) : ℕ :=
  ((ftrunc q) % 256).toNat

/-- `blended = p * mask + original * (1 - mask)` at one pixel. -/
def blendPixel (p orig m : ℚ) : ℚ :=
  p * m + orig * (1 - m)

/-- The compositor on one frame: `f` is the frame's uint8 pixel grid,
`(y1, y2, x1, x2)` the face box, `p` the synthesized crop already resized to
the box size (rational pixel values).  Pixels inside the box become
`uint8(p * mask + original * (1 - mask))`; pixels outside are untouched. -/
def compositeFrame (f : ℕ → ℕ → ℕ) (y1 y2 x1 x2 : ℕ) (p : ℕ → ℕ → ℚ) :
    ℕ → ℕ → ℕ := fun r c =>
  if y1 ≤ r ∧ r < y2 ∧ x1 ≤ c ∧ c < x2 then
    toU8 (blendPixel (p (r - y1) (c - x1)) ((f r c : ℚ))
      (maskWeight (y2 - y1) (x2 - x1) (r - y1) (c - x1)))
  else f r c

/-! ## Definitions: batch assembler / inference driver

Embedding of `prepare_datagen` (lines 184-241) and the generation loop
(lines 359-398).  The generator model plus the resize of its prediction to
the box size is the opaque `synth`; the face-crop resize is the opaque
`resize`. -/

/-- One assembled datum: the resized face crop, the mel chunk, the copied
frame (`frame_to_save = frames[idx].copy()`), and the coords. -/
structure GenEntry where
  face : Img
  mel : MelSlice
  frame : Img
  y1 : ℚ
  y2 : ℚ
  x1 : ℚ
  x2 : ℚ

instance : Inhabited GenEntry := ⟨⟨default, default, default, 0, 0, 0, 0⟩⟩

/-- The entry built for output index `i` (lines 202-212):
`idx = 0 if static else i % len(frames)`; copy `frames[idx]`, pair it with
`face_det_results[idx]` and mel chunk `m`. -/
def datagenEntry (resize : Img → ℕ → Img) (imgSize : ℕ) (frames : List Img)
    (results : List FaceResult) (static : Bool) (i : ℕ) (m : MelSlice) :
    GenEntry :=
  let idx := if static then 0 else i % frames.length
  let res := results.getD idx default
  ⟨resize res.crop imgSize, m, frames.getD idx default,
    res.y1, res.y2, res.x1, res.x2⟩

/-- All entries, one per mel chunk, in order (`for i, m in
enumerate(mel_chunks)`). -/
def datagenEntries (resize : Img → ℕ → Img) (imgSize : ℕ) (frames : List Img)
    (results : List FaceResult) (static : Bool) (mels : List MelSlice) :
    List GenEntry :=
  mels.enum.map (fun im => datagenEntry resize imgSize frames results static im.1 im.2)

/-- The generator's batching (lines 200-241): accumulate entries, yield a
batch once `len(img_batch) >= batch_size`, and yield the final partial batch
if nonempty. -/
def yieldBatches {α : Type} (bs : ℕ) : List α → List α → List (List α)
  | acc, [] => if acc.isEmpty then [] else [acc]
  | acc, x :: xs =>
    if bs ≤ (acc ++ [x]).length then (acc ++ [x]) :: yieldBatches bs [] xs
    else yieldBatches bs (acc ++ [x]) xs

/-- `prepare_datagen`: the stream of batches. -/
def prepare_datagen (resize : Img → ℕ → Img) (imgSize bs : ℕ)
    (frames : List Img) (results : List FaceResult) (static : Bool)
    (mels : List MelSlice) : List (List GenEntry) :=
  yieldBatches bs [] (datagenEntries resize imgSize frames results static mels)

/-- One written output frame (lines 376-398): blend the synthesized crop
into the entry's own copied frame at the entry's coords; the frame is then
streamed to the writer. -/
def writeFrame (synth : GenEntry → ℕ → ℕ → ℚ) (e : GenEntry) : Img :=
  ⟨e.frame.h, e.frame.w,
    compositeFrame e.frame.pix e.y1.floor.toNat e.y2.floor.toNat
      e.x1.floor.toNat e.x2.floor.toNat (synth e)⟩

/-- The batched inference/compositing pass (lines 359-398): one model
invocation per batch, one written frame per entry.  Returns the written
frames in order and the number of model invocations. -/
def runInference (synth : GenEntry → ℕ → ℕ → ℚ)
    (batches : List (List GenEntry)) : List Img × ℕ :=
  ((batches.map (fun b => b.map (writeFrame synth))).flatten, batches.length)

/-! ## Definitions: the run (process_video)

Embedding of `process_video` (lines 243-415) from the point where the mel
spectrogram is available: NaN check, chunking, frame truncation to the
window count, face detection, batched inference and compositing.  Media
decoding/muxing are external I/O and out of the claims' scope. -/

structure RunParams where
  fnum : ℕ
  fden : ℕ
  melStep : ℕ
  detect : DetectParams
  imgSize : ℕ
  batchSize : ℕ

/-- The run.  Returns the outcome and the number of generator invocations
actually performed. -/
def processVideo (det : Img → Option DetRect) (synth : GenEntry → ℕ → ℕ → ℚ)
    (resize : Img → ℕ → Img) (p : RunParams) (frames : List Img)
    (mel : List (List FVal)) : Except PipelineError (List Img) × ℕ :=
  if melHasNaN mel then (.error .invalidAudio, 0)
  else
    let chunks := melChunks (mel.getD 0 []).length p.melStep p.fnum p.fden
    let frames2 := frames.take chunks.length
    match detect_faces det p.detect frames2 with
    | .error e => (.error e, 0)
    | .ok results =>
      let run := runInference synth
        (prepare_datagen resize p.imgSize p.batchSize frames2 results
          p.detect.static chunks)
      (.ok run.1, run.2)

/-- Discriminator: did the run fail with the invalid-audio error?  (Used so
concrete runs can be inspected without deciding equality of frames.) -/
def isInvalidAudio {α : Type} : Except PipelineError α → Bool
  | .error .invalidAudio => true
  | _ => false

/-! ## Definitions: concrete data for witnesses and counterexamples -/

/-- An 8×8 frame with all pixels 100. -/
def testImg : Img :=
  ⟨8, 8, fun _ _ => 100⟩

/-- A detector finding the rectangle (1,1)-(3,3) in every frame. -/
def okDet : Img → Option DetRect :=
  fun _ => some ⟨1, 1, 3, 3⟩

/-- A detector finding no face in any frame. -/
def noFaceDet : Img → Option DetRect :=
  fun _ => none

/-- A generator producing all-zero crops. -/
def zeroSynth : GenEntry → ℕ → ℕ → ℚ :=
  fun _ _ _ => 0

/-- A resize that returns its input unchanged. -/
def idResize : Img → ℕ → Img :=
  fun f _ => f

/-- Default detection parameters with static mode enabled (pads `[0,20,0,0]`
from config.DEFAULT_PARAMS, manual box disabled). -/
def staticDetect : DetectParams :=
  ⟨⟨0, 20, 0, 0⟩, false, ⟨-1, -1, -1, -1⟩, true, 1⟩

/-- Default detection parameters, per-frame strategy, manual box disabled. -/
def perFrameDetect : DetectParams :=
  ⟨⟨0, 20, 0, 0⟩, false, ⟨-1, -1, -1, -1⟩, false, 1⟩

/-- Detection parameters with the manual box `[y1,y2,x1,x2] = [2,1,5,3]`
(active since `box[0] != -1`), which is degenerate (`y2 < y1`, `x2 < x1`). -/
def manualDetect : DetectParams :=
  ⟨⟨0, 20, 0, 0⟩, false, ⟨2, 1, 5, 3⟩, false, 1⟩

/-- Run parameters: fps 25, mel_step_size 16, img_size 96, batch size 128,
static detection. -/
def staticParams : RunParams :=
  ⟨25, 1, 16, staticDetect, 96, 128⟩

/-- Run parameters with per-frame detection. -/
def perFrameParams : RunParams :=
  ⟨25, 1, 16, perFrameDetect, 96, 128⟩

/-- A 1-column feature matrix containing a (non-NaN) infinity. -/
def infMel : List (List FVal) :=
  [[FVal.inf]]

/-- A 1-column all-zero feature matrix. -/
def zeroMel : List (List FVal) :=
  [[FVal.val 0]]

/-- A 1-column feature matrix containing a NaN. -/
def nanMel : List (List FVal) :=
  [[FVal.nan]]

/-- A concrete face-detection result on `testImg` with box (1,1)-(3,3). -/
def testRes : FaceResult :=
  ⟨testImg, 1, 3, 1, 3⟩

/-- The clamped box produced for `okDet`'s rectangle on `testImg` under the
default pads. -/
def okBox : Box :=
  clampRect testImg staticDetect.pads ⟨1, 1, 3, 3⟩

/-- The detection results of the static-mode run of `okDet` on `[testImg]`. -/
def okResults : List FaceResult :=
  [⟨cropImg testImg okBox, okBox.y1, okBox.y2, okBox.x1, okBox.x2⟩]

end Wav2LipVideo

namespace Wav2LipVideo

/-! ## Theorems -/

/-- `melStartIdx` is the floor of `i * 80 / fps` for `fps = fnum / fden`,
as the source computes it. -/
theorem melStartIdx_eq_floor (fnum fden i : ℕ) (hn : 0 < fnum) :
    (melStartIdx fnum fden i : ℤ) =
      Int.floor ((i : ℚ) * (80 / ((fnum : ℚ) / (fden : ℚ)))) := by
  unfold melStartIdx
  rcases Nat.eq_zero_or_pos fden with hd | hd
  · subst hd
    simp
  · have hq : (i : ℚ) * (80 / ((fnum : ℚ) / (fden : ℚ)))
        = ((i * (80 * fden) : ℕ) : ℚ) / ((fnum : ℕ) : ℚ) := by
      field_simp
    rw [hq, Rat.floor_natCast_div_natCast]
    exact (Int.ofNat_div _ _)

/-- The break condition holds at index `fnum * (L + 1)` (so before the
iteration budget runs out). -/
theorem melFuel_overflow (L step fnum fden : ℕ) (hn : 0 < fnum) (hd : 0 < fden) :
    melOverflow L step fnum fden (fnum * (L + 1)) := by
  unfold melOverflow melStartIdx
  have h1 : fnum * (L + 1) * (80 * fden) / fnum = (L + 1) * (80 * fden) := by
    rw [show fnum * (L + 1) * (80 * fden) = fnum * ((L + 1) * (80 * fden)) from by ring,
      Nat.mul_div_cancel_left _ hn]
  rw [h1]
  have h3 := Nat.le_mul_of_pos_right (L + 1) (show 0 < 80 * fden by omega)
  omega

theorem pySliceStart_le (L : ℕ) (k : ℤ) : pySliceStart L k ≤ L := by
  unfold pySliceStart
  split <;> omega

/-- Characterization of the chunking loop: if the break condition first
holds `k` iterations after start index `i`, and the budget covers those
iterations, the loop emits the `k` regular chunks followed by the single
clamped chunk, in order. -/
theorem melChunksAux_spec (L step fnum fden : ℕ) :
    ∀ (k i fuel : ℕ),
      melOverflow L step fnum fden (i + k) →
      (∀ j, j < k → ¬ melOverflow L step fnum fden (i + j)) →
      k < fuel →
      melChunksAux L step fnum fden fuel i =
        (List.range k).map (fun j => normalChunk fnum fden step (i + j))
          ++ [clampedChunk L step] := by
  intro k
  induction k with
  | zero =>
    intro i fuel hov _ hfuel
    obtain ⟨m, rfl⟩ : ∃ m, fuel = m + 1 := ⟨fuel - 1, by omega⟩
    unfold melOverflow at hov
    simp only [Nat.add_zero] at hov
    simp [melChunksAux, if_pos hov]
  | succ k ih =>
    intro i fuel hov hmin hfuel
    obtain ⟨m, rfl⟩ : ∃ m, fuel = m + 1 := ⟨fuel - 1, by omega⟩
    have hni : ¬ melOverflow L step fnum fden i := by
      have h := hmin 0 (by omega)
      simpa using h
    unfold melOverflow at hni
    simp only [melChunksAux]
    rw [if_neg hni]
    have hov' : melOverflow L step fnum fden ((i + 1) + k) := by
      have he : (i + 1) + k = i + (k + 1) := by omega
      rw [he]; exact hov
    have hmin' : ∀ j, j < k → ¬ melOverflow L step fnum fden ((i + 1) + j) := by
      intro j hj
      have he : (i + 1) + j = i + (j + 1) := by omega
      rw [he]; exact hmin (j + 1) (by omega)
    rw [ih (i + 1) m hov' hmin' (by omega)]
    rw [List.range_succ_eq_map, List.map_cons, List.map_map]
    simp only [Nat.add_zero, List.cons_append]
    congr 1
    congr 1
    apply List.map_congr_left
    intro j _
    simp only [Function.comp_apply]
    congr 1
    omega

/-- The chunk list in closed form, given the least break index `n`. -/
theorem melChunks_eq (L step fnum fden n : ℕ) (hn : 0 < fnum) (hd : 0 < fden)
    (hov : melOverflow L step fnum fden n)
    (hmin : ∀ j < n, ¬ melOverflow L step fnum fden j) :
    melChunks L step fnum fden =
      (List.range n).map (fun j => normalChunk fnum fden step j)
        ++ [clampedChunk L step] := by
  have hnb : n ≤ fnum * (L + 1) := by
    by_contra hlt
    exact hmin (fnum * (L + 1)) (by omega) (melFuel_overflow L step fnum fden hn hd)
  have h := melChunksAux_spec L step fnum fden n 0 (melFuel L fnum)
    (by simpa using hov) (fun j hj => by simpa using hmin j hj)
    (by unfold melFuel; omega)
  simpa [melChunks] using h

/-- C1 (amended): for a feature matrix of `L` columns and `fps = fnum/fden > 0`,
the chunking loop emits exactly `n + 1` feature windows, where `n` is the
least loop index whose window would run past column `L`
(`int(n * 80/fps) + mel_step_size > L`); it is NOT `⌈L / (80/fps)⌉` in
general (see the counterexample).  Every emitted window ends at or before
column `L` (clamped backward, never padded). -/
theorem mel_chunk_count (L step fnum fden n : ℕ) (hn : 0 < fnum) (hd : 0 < fden)
    (hov : melOverflow L step fnum fden n)
    (hmin : ∀ j < n, ¬ melOverflow L step fnum fden j) :
    (melChunks L step fnum fden).length = n + 1 ∧
      ∀ sl ∈ melChunks L step fnum fden, sl.start + sl.width ≤ L := by
  rw [melChunks_eq L step fnum fden n hn hd hov hmin]
  constructor
  · simp
  · intro sl hsl
    rcases List.mem_append.mp hsl with hmem | hmem
    · obtain ⟨j, hj, rfl⟩ := List.mem_map.mp hmem
      have hjn : j < n := List.mem_range.mp hj
      have := hmin j hjn
      unfold melOverflow at this
      dsimp only [normalChunk]
      omega
    · rcases List.mem_singleton.mp hmem with rfl
      dsimp only [clampedChunk]
      have := pySliceStart_le L ((L : ℤ) - step)
      omega

/-- C1 witness: concrete run at `L = 17`, `mel_step_size = 16`, `fps = 25`;
the loop breaks first at index `n = 1` and emits 2 windows. -/
theorem mel_chunk_count_witness :
    (0 < 25 ∧ 0 < 1 ∧ melOverflow 17 16 25 1 1 ∧ (∀ j < 1, ¬ melOverflow 17 16 25 1 j)) ∧
      ((melChunks 17 16 25 1).length = 1 + 1 ∧
        ∀ sl ∈ melChunks 17 16 25 1, sl.start + sl.width ≤ 17) :=
  ⟨⟨by decide, by decide, by decide, by decide⟩,
    mel_chunk_count 17 16 25 1 1 (by decide) (by decide) (by decide) (by decide)⟩

/-- C1 counterexample: at `L = 17`, `mel_step_size = 16`, `fps = 25` the loop
emits 2 windows, but `⌈L / (80/fps)⌉ = ⌈17/3.2⌉ = 6`.  The claimed count
formula does not hold on the code. -/
theorem mel_chunk_count_counterexample :
    ¬ (((melChunks 17 16 25 1).length : ℤ) =
        Int.ceil ((17 : ℚ) / (80 / ((25 : ℚ) / 1)))) := by
  have h1 : (melChunks 17 16 25 1).length = 2 := by decide
  have h2 : Int.ceil ((17 : ℚ) / (80 / ((25 : ℚ) / 1))) = 6 := by
    rw [Int.ceil_eq_iff]
    norm_num
  rw [h1, h2]
  decide

theorem clampedChunk_width (L step : ℕ) (hL : step ≤ L) :
    clampedChunk L step = ⟨L - step, step⟩ := by
  unfold clampedChunk pySliceStart
  have h : ¬ ((L : ℤ) - step < 0) := by omega
  rw [if_neg h]
  congr 1 <;> omega

/-- C4 (amended): provided the feature matrix has at least `mel_step_size`
columns, every emitted window has width exactly `mel_step_size`; whenever the
window starting at `int(i * 80/fps)` would run past the end, the final
`mel_step_size` columns are taken instead, that clamped window is the last
one emitted, and no further windows are produced.  (For matrices shorter
than `mel_step_size` the single clamped window is narrower — see the
counterexample.) -/
theorem mel_chunk_width_structure (L step fnum fden : ℕ) (hn : 0 < fnum)
    (hd : 0 < fden) (hL : step ≤ L) :
    (∀ sl ∈ melChunks L step fnum fden, sl.width = step) ∧
      ∃ n, melChunks L step fnum fden =
        (List.range n).map (fun j => normalChunk fnum fden step j)
          ++ [⟨L - step, step⟩] := by
  have hex : ∃ i, melOverflow L step fnum fden i :=
    ⟨fnum * (L + 1), melFuel_overflow L step fnum fden hn hd⟩
  have heq := melChunks_eq L step fnum fden (Nat.find hex) hn hd
    (Nat.find_spec hex) (fun j hj => Nat.find_min hex hj)
  rw [clampedChunk_width L step hL] at heq
  refine ⟨?_, Nat.find hex, heq⟩
  intro sl hsl
  rw [heq] at hsl
  rcases List.mem_append.mp hsl with hmem | hmem
  · obtain ⟨j, _, rfl⟩ := List.mem_map.mp hmem
    rfl
  · rcases List.mem_singleton.mp hmem with rfl
    rfl

/-- C4 witness: concrete run at `L = 32`, `mel_step_size = 16`, `fps = 25`:
all windows have width 16 and the clamped window `⟨16, 16⟩` is last. -/
theorem mel_chunk_width_structure_witness :
    (0 < 25 ∧ 0 < 1 ∧ 16 ≤ 32) ∧
      ((∀ sl ∈ melChunks 32 16 25 1, sl.width = 16) ∧
        ∃ n, melChunks 32 16 25 1 =
          (List.range n).map (fun j => normalChunk 25 1 16 j) ++ [⟨32 - 16, 16⟩]) :=
  ⟨⟨by decide, by decide, by decide⟩,
    mel_chunk_width_structure 32 16 25 1 (by decide) (by decide) (by decide)⟩

/-- C4 counterexample: a feature matrix with `L = 10 < 16` columns
(`fps = 25`): the single emitted window is `mel[:, -6:]`, i.e. start 4 and
width 6, not width 16.  Python's negative-index slice semantics make the
clamped window narrower than `mel_step_size`. -/
theorem mel_chunk_width_counterexample :
    ¬ (∀ sl ∈ melChunks 10 16 25 1, sl.width = 16) := by
  decide

theorem length_smoothStep (T : ℕ) (boxes : List Box) (i : ℕ) :
    (smoothStep T boxes i).length = boxes.length := by
  simp [smoothStep]

theorem length_smoothUpTo (boxes : List Box) (T j : ℕ) :
    (smoothUpTo boxes T j).length = boxes.length := by
  induction j with
  | zero => rfl
  | succ j ih =>
    unfold smoothUpTo at *
    rw [List.range_succ, List.foldl_append, List.foldl_cons, List.foldl_nil,
      length_smoothStep, ih]

theorem length_get_smoothened_boxes (boxes : List Box) (T : ℕ) :
    (get_smoothened_boxes boxes T).length = boxes.length :=
  length_smoothUpTo boxes T boxes.length

/-- Iterations at indices `< j` do not touch entries at indices `≥ j`. -/
theorem smoothUpTo_getElem?_of_le (boxes : List Box) (T : ℕ) :
    ∀ j k : ℕ, j ≤ k → (smoothUpTo boxes T j)[k]? = boxes[k]? := by
  intro j
  induction j with
  | zero => intro k _; rfl
  | succ j ih =>
    intro k hk
    unfold smoothUpTo at *
    rw [List.range_succ, List.foldl_append, List.foldl_cons, List.foldl_nil]
    show (smoothStep T ((List.range j).foldl (smoothStep T) boxes) j)[k]? = boxes[k]?
    unfold smoothStep
    rw [List.getElem?_set_ne (by omega)]
    exact ih k (by omega)

/-- Iterations at indices `> i` do not touch entry `i`. -/
theorem smoothUpTo_getElem?_stable (boxes : List Box) (T i : ℕ) :
    ∀ j : ℕ, i + 1 ≤ j →
      (smoothUpTo boxes T j)[i]? = (smoothUpTo boxes T (i + 1))[i]? := by
  intro j
  induction j with
  | zero => omega
  | succ j ih =>
    intro hj
    rcases Nat.lt_or_ge i j with hij | hij
    · unfold smoothUpTo at *
      rw [List.range_succ, List.foldl_append, List.foldl_cons, List.foldl_nil]
      show (smoothStep T ((List.range j).foldl (smoothStep T) boxes) j)[i]? = _
      unfold smoothStep
      rw [List.getElem?_set_ne (by omega)]
      exact ih (by omega)
    · have h : j = i := by omega
      subst h
      rfl

/-- Value written by iteration `i`: the mean of the window read from the
state after the first `i` iterations. -/
theorem smoothUpTo_getElem?_succ (boxes : List Box) (T i : ℕ)
    (hi : i < boxes.length) :
    (smoothUpTo boxes T (i + 1))[i]? =
      some (boxMean (windowAt (smoothUpTo boxes T i) i T)) := by
  unfold smoothUpTo
  rw [List.range_succ, List.foldl_append, List.foldl_cons, List.foldl_nil]
  show (smoothStep T (smoothUpTo boxes T i) i)[i]? = _
  unfold smoothStep
  rw [List.getElem?_set_self (by rw [length_smoothUpTo]; exact hi)]
  rfl

/-- For an interior index (`i + T ≤ len`) the window read by iteration `i`
consists of the original, not-yet-overwritten entries. -/
theorem windowAt_smoothUpTo_interior (boxes : List Box) (T i : ℕ)
    (hi : i + T ≤ boxes.length) :
    windowAt (smoothUpTo boxes T i) i T = (boxes.drop i).take T := by
  unfold windowAt
  rw [length_smoothUpTo]
  rw [if_neg (by omega)]
  apply List.ext_getElem?
  intro n
  rcases Nat.lt_or_ge n T with hn | hn
  · rw [List.getElem?_take_of_lt hn, List.getElem?_take_of_lt hn,
      List.getElem?_drop, List.getElem?_drop]
    exact smoothUpTo_getElem?_of_le boxes T i (i + n) (by omega)
  · rw [List.getElem?_take_eq_none hn, List.getElem?_take_eq_none hn]

/-- C3 (amended): for every frame index `i` with `i + 5 ≤ len` the smoothed
box equals the arithmetic mean of the original (pre-smoothing) boxes at
indices `[i, i+5)`.  For frames within 5 of the end this fails: the code
instead averages the fixed window of the LAST 5 entries of the partially
updated (in-place) array, not the shorter clipped window of original boxes
(see the counterexample). -/
theorem smoothed_box_interior_mean (boxes : List Box) (T i : ℕ)
    (hT : 0 < T) (hi : i + T ≤ boxes.length) :
    (get_smoothened_boxes boxes T).getD i default =
      boxMean ((boxes.drop i).take T) := by
  have hlen : i < boxes.length := by omega
  have h1 : (get_smoothened_boxes boxes T)[i]? =
      (smoothUpTo boxes T (i + 1))[i]? := by
    unfold get_smoothened_boxes
    exact smoothUpTo_getElem?_stable boxes T i boxes.length (by omega)
  rw [List.getD_eq_getElem?_getD, h1,
    smoothUpTo_getElem?_succ boxes T i hlen,
    windowAt_smoothUpTo_interior boxes T i hi]
  rfl

/-- C3 witness: a concrete 6-frame box sequence; at interior index `i = 1`
(`1 + 5 ≤ 6`) the smoothed box is the mean of the original boxes `[1, 6)`. -/
theorem smoothed_box_interior_mean_witness :
    (0 < 5 ∧ 1 + 5 ≤ smoothCexBoxes.length) ∧
      (get_smoothened_boxes smoothCexBoxes 5).getD 1 default =
        boxMean ((smoothCexBoxes.drop 1).take 5) :=
  ⟨⟨by decide, by decide⟩,
    smoothed_box_interior_mean smoothCexBoxes 5 1 (by decide) (by decide)⟩

/-- C3 counterexample: for the 6-frame sequence `[0,0,0,0,0,60]`
(x1-coordinates) with `T = 5`, frame `i = 2` is within 5 of the end; the
code averages the last-5 window of the partially updated array
(`[12, 0, 0, 0, 60]`, mean `72/5`), while the claim demands the mean of the
original boxes in the clipped window `[2, 6)` (namely `15`).  They differ. -/
theorem smoothed_box_counterexample :
    smoothCexBoxes.length < 2 + 5 ∧
      2 < (get_smoothened_boxes smoothCexBoxes 5).length ∧
      (get_smoothened_boxes smoothCexBoxes 5).getD 2 default ≠
        boxMean ((smoothCexBoxes.drop 2).take 5) := by
  refine ⟨by decide, ?_, ?_⟩
  · rw [length_get_smoothened_boxes]
    decide
  · have hr : List.range 6 = [0, 1, 2, 3, 4, 5] := by decide
    norm_num [get_smoothened_boxes, smoothCexBoxes, hr, smoothStep, windowAt,
      pyDropFrom, boxMean, boxSum, boxAdd, List.set, Box.mk.injEq]

/-- C7: if the detector hits an out-of-memory error at every attempted batch
size, the detection pass starting at batch size 16 attempts exactly the
sizes 16, 8, 4, 2, 1 in that order (halving on each retry), and the OOM at
batch size 1 is fatal — the loop gives up with no success. -/
theorem oom_retry_sequence (oomAt : ℕ → Bool) (h : ∀ b, oomAt b = true) :
    detectRetryTrace oomAt 16 = ([16, 8, 4, 2, 1], false) := by
  simp [detectRetryTrace, retryAux, h]

/-- C7 witness: the always-OOM oracle. -/
theorem oom_retry_sequence_witness :
    (∀ b : ℕ, (fun _ : ℕ => true) b = true) ∧
      detectRetryTrace (fun _ => true) 16 = ([16, 8, 4, 2, 1], false) :=
  ⟨fun _ => rfl, oom_retry_sequence (fun _ => true) (fun _ => rfl)⟩

/-- blend(x, x) = x at one pixel, for any mask weight. -/
theorem blendPixel_self (x m : ℚ) : blendPixel x x m = x := by
  unfold blendPixel
  ring

/-- Converting an in-range byte back from float is the identity. -/
theorem toU8_natCast (x : ℕ) (hx : x ≤ 255) : toU8 (x : ℚ) = x := by
  unfold toU8 ftrunc
  rw [if_pos (by positivity), Int.floor_natCast]
  omega

/-- C8: blending is the identity on identical inputs —
`x * mask + x * (1 - mask) = x` for every pixel value and every mask weight
(first conjunct), so compositing a synthesized crop that is pixel-identical
to the original crop reproduces the original frame exactly, for every frame,
box and feather mask (second conjunct). -/
theorem composite_identity (f : ℕ → ℕ → ℕ) (y1 y2 x1 x2 : ℕ)
    (hpix : ∀ r c, f r c ≤ 255) :
    (∀ (x : ℕ) (m : ℚ), x ≤ 255 → toU8 (blendPixel (x : ℚ) (x : ℚ) m) = x) ∧
      compositeFrame f y1 y2 x1 x2 (fun rr cc => (f (y1 + rr) (x1 + cc) : ℚ)) = f := by
  have hpt : ∀ (x : ℕ) (m : ℚ), x ≤ 255 → toU8 (blendPixel (x : ℚ) (x : ℚ) m) = x := by
    intro x m hx
    rw [blendPixel_self]
    exact toU8_natCast x hx
  refine ⟨hpt, ?_⟩
  funext r c
  unfold compositeFrame
  split
  · rename_i hin
    obtain ⟨h1, h2, h3, h4⟩ := hin
    have he1 : y1 + (r - y1) = r := by omega
    have he2 : x1 + (c - x1) = c := by omega
    dsimp only
    rw [he1, he2]
    exact hpt (f r c) _ (hpix r c)
  · rfl

/-- C8 witness: the all-100 frame with box (1,1)-(3,3). -/
theorem composite_identity_witness :
    (∀ r c, testImg.pix r c ≤ 255) ∧
      ((∀ (x : ℕ) (m : ℚ), x ≤ 255 → toU8 (blendPixel (x : ℚ) (x : ℚ) m) = x) ∧
        compositeFrame testImg.pix 1 3 1 3
          (fun rr cc => (testImg.pix (1 + rr) (1 + cc) : ℚ)) = testImg.pix) :=
  ⟨fun _ _ => by show (100 : ℕ) ≤ 255; decide,
    composite_identity testImg.pix 1 3 1 3 (fun _ _ => by show (100 : ℕ) ≤ 255; decide)⟩

/-- The batches concatenate back to the accumulated entries: batching
regroups but neither drops nor duplicates any entry. -/
theorem yieldBatches_flatten {α : Type} (bs : ℕ) :
    ∀ (l acc : List α), (yieldBatches bs acc l).flatten = acc ++ l := by
  intro l
  induction l with
  | nil =>
    intro acc
    show (if acc.isEmpty then ([] : List (List α)) else [acc]).flatten = acc ++ []
    split
    · rename_i h
      rw [List.isEmpty_iff.mp h]
      rfl
    · simp
  | cons x xs ih =>
    intro acc
    show (if bs ≤ (acc ++ [x]).length then (acc ++ [x]) :: yieldBatches bs [] xs
      else yieldBatches bs (acc ++ [x]) xs).flatten = acc ++ x :: xs
    split
    · simp [ih]
    · simp [ih]

theorem flatten_map_map {α β : Type} (f : α → β) (L : List (List α)) :
    (L.map (fun b => b.map f)).flatten = L.flatten.map f := by
  induction L with
  | nil => rfl
  | cons b L ih =>
    rw [List.map_cons, List.flatten_cons, List.flatten_cons, List.map_append, ih]

/-- The written output frames are exactly the per-entry composites, in
order. -/
theorem runInference_outputs (synth : GenEntry → ℕ → ℕ → ℚ)
    (resize : Img → ℕ → Img) (imgSize bs : ℕ) (frames : List Img)
    (results : List FaceResult) (static : Bool) (mels : List MelSlice) :
    (runInference synth
        (prepare_datagen resize imgSize bs frames results static mels)).1
      = (datagenEntries resize imgSize frames results static mels).map
          (writeFrame synth) := by
  unfold runInference prepare_datagen
  rw [flatten_map_map, yieldBatches_flatten]
  rfl

theorem datagenEntries_length (resize : Img → ℕ → Img) (imgSize : ℕ)
    (frames : List Img) (results : List FaceResult) (static : Bool)
    (mels : List MelSlice) :
    (datagenEntries resize imgSize frames results static mels).length
      = mels.length := by
  unfold datagenEntries
  rw [List.length_map, List.enum_eq_enumFrom, List.enumFrom_length]

theorem datagenEntries_getElem? (resize : Img → ℕ → Img) (imgSize : ℕ)
    (frames : List Img) (results : List FaceResult) (static : Bool)
    (mels : List MelSlice) (i : ℕ) (hi : i < mels.length) :
    (datagenEntries resize imgSize frames results static mels)[i]?
      = some (datagenEntry resize imgSize frames results static i
          (mels.getD i default)) := by
  unfold datagenEntries
  rw [List.getElem?_map, List.enum_eq_enumFrom, List.getElem?_enumFrom,
    List.getElem?_eq_getElem hi]
  simp [List.getD_eq_getElem?_getD, List.getElem?_eq_getElem hi]

/-- The selected source index is unchanged by the truncation of the frame
sequence to the window count: for `i < M`, `i mod min M F = i mod F`. -/
theorem mod_take_eq (F M i : ℕ) (hF : 0 < F) (hi : i < M) :
    i % min M F = i % F := by
  rcases Nat.le_total M F with h | h
  · rw [Nat.min_eq_left h, Nat.mod_eq_of_lt hi, Nat.mod_eq_of_lt (by omega)]
  · rw [Nat.min_eq_right h]

/-- C2: exactly one output frame is produced per feature window — the output
frame count equals the window count even when the video is longer or shorter
than the audio (the loaded frames are truncated to the window count first) —
and the batch entry for window `i` carries source frame 0 when static mode
is enabled, else frame `i mod frame_count` of the loaded sequence. -/
theorem output_count_and_pairing (synth : GenEntry → ℕ → ℕ → ℚ)
    (resize : Img → ℕ → Img) (imgSize bs : ℕ) (frames : List Img)
    (results : List FaceResult) (static : Bool) (mels : List MelSlice)
    (hF : frames ≠ []) :
    ((runInference synth (prepare_datagen resize imgSize bs
        (frames.take mels.length) results static mels)).1).length = mels.length ∧
      ∀ i, i < mels.length →
        ((datagenEntries resize imgSize (frames.take mels.length) results static
            mels).getD i default).frame
          = (frames.take mels.length).getD
              (if static then 0 else i % frames.length) default := by
  constructor
  · rw [runInference_outputs, List.length_map, datagenEntries_length]
  · intro i hi
    rw [List.getD_eq_getElem?_getD,
      datagenEntries_getElem? resize imgSize _ results static mels i hi,
      Option.getD_some]
    unfold datagenEntry
    dsimp only
    cases static with
    | false =>
      simp only [Bool.false_eq_true, if_false]
      rw [List.length_take]
      rw [mod_take_eq frames.length mels.length i (by
        cases frames with
        | nil => exact absurd rfl hF
        | cons a l => simp) hi]
    | true =>
      simp only [if_true]

/-- C2 witness: one loaded frame, one mel window, per-frame mode. -/
theorem output_count_and_pairing_witness :
    ([testImg] ≠ []) ∧
      (((runInference zeroSynth (prepare_datagen idResize 96 128
          ([testImg].take [(⟨0, 16⟩ : MelSlice)].length) [testRes] false
          [⟨0, 16⟩])).1).length = [(⟨0, 16⟩ : MelSlice)].length ∧
        ∀ i, i < [(⟨0, 16⟩ : MelSlice)].length →
          ((datagenEntries idResize 96 ([testImg].take [(⟨0, 16⟩ : MelSlice)].length)
              [testRes] false [⟨0, 16⟩]).getD i default).frame
            = ([testImg].take [(⟨0, 16⟩ : MelSlice)].length).getD
                (if false then 0 else i % [testImg].length) default) :=
  ⟨List.cons_ne_nil _ _,
    output_count_and_pairing zeroSynth idResize 96 128 [testImg] [testRes]
      false [⟨0, 16⟩] (List.cons_ne_nil _ _)⟩

/-- C10: the inference/compositing pass never mutates the loaded source
frame sequence — each batch entry is built from its own copy
(`frames[idx].copy()`), so the output frame for window `i` is the composite
of the ORIGINAL source frame selected for `i` (frame `0` in static mode,
else `i mod len`): a function only of the loaded frames, the detections and
window `i`, never of a previously synthesized output.  In particular, when
the same source frame serves several output indices (static mode or modulo
wrap-around), each output is blended against the original, unmodified
pixels. -/
theorem compositing_reads_original_frames (synth : GenEntry → ℕ → ℕ → ℚ)
    (resize : Img → ℕ → Img) (imgSize bs : ℕ) (frames : List Img)
    (results : List FaceResult) (static : Bool) (mels : List MelSlice)
    (i : ℕ) (hi : i < mels.length) :
    ((runInference synth (prepare_datagen resize imgSize bs frames results
        static mels)).1).getD i default
      = writeFrame synth (datagenEntry resize imgSize frames results static i
          (mels.getD i default)) := by
  rw [runInference_outputs, List.getD_eq_getElem?_getD, List.getElem?_map,
    datagenEntries_getElem? resize imgSize frames results static mels i hi]
  rfl

/-- C10 witness: static mode, two windows sharing source frame 0; both
outputs are composites of the original frame. -/
theorem compositing_reads_original_frames_witness :
    1 < [(⟨0, 16⟩ : MelSlice), ⟨3, 16⟩].length ∧
      ((runInference zeroSynth (prepare_datagen idResize 96 128 [testImg]
          [testRes] true [⟨0, 16⟩, ⟨3, 16⟩])).1).getD 1 default
        = writeFrame zeroSynth (datagenEntry idResize 96 [testImg] [testRes]
            true 1 ([(⟨0, 16⟩ : MelSlice), ⟨3, 16⟩].getD 1 default)) :=
  ⟨by decide,
    compositing_reads_original_frames zeroSynth idResize 96 128 [testImg]
      [testRes] true [⟨0, 16⟩, ⟨3, 16⟩] 1 (by decide)⟩

/-- C5: in every run with valid audio, manual box disabled, and some sampled
frame yielding no detection, the run fails with the face-not-detected error
and the generator is invoked zero times — the failure happens before any
inference, for every generator and regardless of which frames were sampled.
No frame is silently skipped: one missing detection aborts the whole run. -/
theorem face_error_before_inference (det : Img → Option DetRect)
    (synth : GenEntry → ℕ → ℕ → ℚ) (resize : Img → ℕ → Img) (p : RunParams)
    (frames : List Img) (mel : List (List FVal))
    (hmel : melHasNaN mel = false)
    (hmanual : p.detect.box.y1 = -1)
    (hface : ∃ f ∈ framesToDetect
        (frames.take (melChunks (mel.getD 0 []).length p.melStep p.fnum
          p.fden).length) p.detect.static p.detect.everyN, det f = none) :
    processVideo det synth resize p frames mel
      = (.error .faceNotDetected, 0) := by
  have hd : detect_faces det p.detect
      (frames.take (melChunks (mel.getD 0 []).length p.melStep p.fnum
        p.fden).length) = .error .faceNotDetected := by
    unfold detect_faces
    rw [if_neg (by rw [hmanual]; exact fun h => h rfl)]
    have hany : ((framesToDetect
        (frames.take (melChunks (mel.getD 0 []).length p.melStep p.fnum
          p.fden).length) p.detect.static p.detect.everyN).map det).any
        (fun r => r.isNone) = true := by
      obtain ⟨f, hmem, hnone⟩ := hface
      refine List.any_eq_true.mpr ⟨det f, List.mem_map_of_mem det hmem, ?_⟩
      rw [hnone]
      rfl
    simp only [hany, if_true]
  unfold processVideo
  rw [hmel]
  simp only [Bool.false_eq_true, if_false]
  rw [hd]

/-- C5 witness: a never-detecting detector on a single frame, per-frame
strategy, valid (all-zero) audio features. -/
theorem face_error_before_inference_witness :
    melHasNaN zeroMel = false ∧ perFrameParams.detect.box.y1 = -1 ∧
      (∃ f ∈ framesToDetect ([testImg].take
          (melChunks (zeroMel.getD 0 []).length perFrameParams.melStep
            perFrameParams.fnum perFrameParams.fden).length)
          perFrameParams.detect.static perFrameParams.detect.everyN,
        noFaceDet f = none) ∧
      processVideo noFaceDet zeroSynth idResize perFrameParams [testImg] zeroMel
        = (.error .faceNotDetected, 0) :=
  ⟨by decide, by decide, ⟨testImg, List.mem_singleton_self _, rfl⟩,
    face_error_before_inference noFaceDet zeroSynth idResize perFrameParams
      [testImg] zeroMel (by decide) (by decide)
      ⟨testImg, List.mem_singleton_self _, rfl⟩⟩

/-- C6 (amended): if the feature matrix contains any NaN, the run fails with
the invalid-audio error immediately — before any window is chunked, any
detection, or any generator call (zero inference invocations, and the
outcome is the same for every detector and generator).  The upfront check
tests only `np.isnan`, so a matrix with non-finite infinities but no NaN
does NOT trigger the error (see the counterexample). -/
theorem nan_aborts_run (det : Img → Option DetRect)
    (synth : GenEntry → ℕ → ℕ → ℚ) (resize : Img → ℕ → Img) (p : RunParams)
    (frames : List Img) (mel : List (List FVal))
    (hmel : melHasNaN mel = true) :
    processVideo det synth resize p frames mel = (.error .invalidAudio, 0) := by
  unfold processVideo
  rw [hmel]
  rfl

/-- C6 witness: a NaN-bearing feature matrix aborts the concrete run. -/
theorem nan_aborts_run_witness :
    melHasNaN nanMel = true ∧
      processVideo okDet zeroSynth idResize staticParams [testImg] nanMel
        = (.error .invalidAudio, 0) :=
  ⟨by decide,
    nan_aborts_run okDet zeroSynth idResize staticParams [testImg] nanMel
      (by decide)⟩

/-- C6 counterexample: a feature matrix containing an infinity — a
non-finite value that is not a NaN — passes the audio check: the run does
not fail with the invalid-audio error (it proceeds to chunking and
inference), refuting the claim for non-finite values in general. -/
theorem nonfinite_audio_counterexample :
    infMel.any (fun row => row.any (fun v => ! v.isFinite)) = true ∧
      isInvalidAudio (processVideo okDet zeroSynth idResize staticParams
        [testImg] infMel).1 = false := by
  exact ⟨by decide, rfl⟩

/-- Padding then clamping an in-bounds, nondegenerate detector rectangle
with nonnegative pads yields a box satisfying the data-model invariant. -/
theorem clampRect_boxOK (img : Img) (pads : Pads) (r : DetRect)
    (hp1 : 0 ≤ pads.pady1) (hp2 : 0 ≤ pads.pady2)
    (hp3 : 0 ≤ pads.padx1) (hp4 : 0 ≤ pads.padx2)
    (hx1 : 0 ≤ r.x1) (hy1 : 0 ≤ r.y1) (hxx : r.x1 < r.x2) (hyy : r.y1 < r.y2)
    (hxw : r.x2 ≤ (img.w : ℤ)) (hyh : r.y2 ≤ (img.h : ℤ)) :
    BoxOK img.h img.w (clampRect img pads r) := by
  unfold BoxOK clampRect clampRectZ
  dsimp only
  refine ⟨?_, ?_, ?_, ?_, ?_, ?_⟩
  · exact_mod_cast (show (0 : ℤ) ≤ max 0 (r.x1 - pads.padx1) by omega)
  · exact_mod_cast (show max 0 (r.x1 - pads.padx1)
      < min (img.w : ℤ) (r.x2 + pads.padx2) by omega)
  · exact_mod_cast (show min (img.w : ℤ) (r.x2 + pads.padx2) ≤ (img.w : ℤ) by omega)
  · exact_mod_cast (show (0 : ℤ) ≤ max 0 (r.y1 - pads.pady1) by omega)
  · exact_mod_cast (show max 0 (r.y1 - pads.pady1)
      < min (img.h : ℤ) (r.y2 + pads.pady2) by omega)
  · exact_mod_cast (show min (img.h : ℤ) (r.y2 + pads.pady2) ≤ (img.h : ℤ) by omega)

theorem mem_zip_map {α β : Type} (f : α → β) :
    ∀ (l : List α) (pr : β × α), pr ∈ (l.map f).zip l →
      pr.1 = f pr.2 ∧ pr.2 ∈ l := by
  intro l
  induction l with
  | nil => intro pr h; cases h
  | cons x xs ih =>
    intro pr h
    rw [List.map_cons, List.zip_cons_cons] at h
    rcases List.mem_cons.mp h with h | h
    · subst h
      exact ⟨rfl, List.mem_cons_self _ _⟩
    · obtain ⟨h1, h2⟩ := ih pr h
      exact ⟨h1, List.mem_cons_of_mem _ h2⟩

theorem getD_mem_of_lt {α : Type} [Inhabited α] (l : List α) (i : ℕ)
    (hi : i < l.length) : l.getD i default ∈ l := by
  rw [List.getD_eq_getElem?_getD, List.getElem?_eq_getElem hi]
  exact List.getElem_mem hi

/-- Every frame sampled by any detection strategy is a loaded frame. -/
theorem framesToDetect_mem (frames : List Img) (static : Bool) (everyN : ℕ) :
    ∀ f ∈ framesToDetect frames static everyN, f ∈ frames := by
  intro f hf
  unfold framesToDetect at hf
  split at hf
  · exact List.mem_of_mem_take hf
  · split at hf
    · obtain ⟨i, hi, rfl⟩ := List.mem_map.mp hf
      have hilt : i < frames.length := by
        unfold pyRangeStep at hi
        exact List.mem_range.mp (List.mem_filter.mp hi).1
      exact getD_mem_of_lt frames i hilt
    · exact hf

theorem framesToDetect_ne_nil (frames : List Img) (static : Bool) (everyN : ℕ)
    (h : frames ≠ []) : framesToDetect frames static everyN ≠ [] := by
  unfold framesToDetect
  split
  · cases frames with
    | nil => exact absurd rfl h
    | cons a t => simp
  · split
    · have h0 : 0 ∈ pyRangeStep frames.length everyN := by
        unfold pyRangeStep
        refine List.mem_filter.mpr ⟨List.mem_range.mpr ?_, by simp⟩
        cases frames with
        | nil => exact absurd rfl h
        | cons a t => simp
      intro hmap
      rw [List.map_eq_nil_iff] at hmap
      rw [hmap] at h0
      cases h0
    · exact h

/-- Every box assigned to a frame by the expansion stage is one of the
detections. -/
theorem expandBoxes_mem (frameCount : ℕ) (static : Bool) (everyN : ℕ)
    (detected : List Box) (hne : detected ≠ []) :
    ∀ b ∈ expandBoxes frameCount static everyN detected, b ∈ detected := by
  have hpos : 0 < detected.length := by
    cases detected with
    | nil => exact absurd rfl hne
    | cons a t => simp
  intro b hb
  unfold expandBoxes at hb
  split at hb
  · rw [List.eq_of_mem_replicate hb]
    exact getD_mem_of_lt detected 0 hpos
  · split at hb
    · obtain ⟨i, _, rfl⟩ := List.mem_map.mp hb
      exact getD_mem_of_lt detected _ (by omega)
    · exact hb

theorem mem_windowAt (boxes : List Box) (i T : ℕ) :
    ∀ b ∈ windowAt boxes i T, b ∈ boxes := by
  intro b hb
  unfold windowAt at hb
  split at hb
  · unfold pyDropFrom at hb
    split at hb <;> exact List.mem_of_mem_drop hb
  · exact List.mem_of_mem_drop (List.mem_of_mem_take hb)

theorem windowAt_length_pos (boxes : List Box) (i T : ℕ) (hT : 0 < T)
    (hi : i < boxes.length) : 0 < (windowAt boxes i T).length := by
  unfold windowAt pyDropFrom
  split
  · split
    · rename_i hover hneg
      rw [List.length_drop]
      omega
    · rename_i hover hpos
      rw [List.length_drop]
      omega
  · rename_i hover
    rw [List.length_take, List.length_drop]
    omega

theorem boxSum_cons (b : Box) (l : List Box) :
    boxSum (b :: l) = boxAdd b (boxSum l) := rfl

/-- Aggregate bounds for the coordinate sums of a nonempty list of valid
boxes. -/
theorem boxSum_ok (H W : ℕ) :
    ∀ l : List Box, l ≠ [] → (∀ b ∈ l, BoxOK H W b) →
      0 ≤ (boxSum l).x1 ∧ (boxSum l).x1 < (boxSum l).x2 ∧
        (boxSum l).x2 ≤ (l.length : ℚ) * W ∧
      0 ≤ (boxSum l).y1 ∧ (boxSum l).y1 < (boxSum l).y2 ∧
        (boxSum l).y2 ≤ (l.length : ℚ) * H := by
  intro l
  induction l with
  | nil => intro h; exact absurd rfl h
  | cons b xs ih =>
    intro _ hall
    obtain ⟨hbx1, hbx2, hbx3, hby1, hby2, hby3⟩ :=
      hall b (List.mem_cons_self _ _)
    cases xs with
    | nil =>
      rw [boxSum_cons]
      unfold boxSum boxAdd
      dsimp only [List.foldr_nil]
      push_cast [List.length_cons, List.length_nil]
      refine ⟨by linarith, by linarith, by linarith, by linarith, by linarith,
        by linarith⟩
    | cons c ys =>
      have hall' : ∀ x ∈ c :: ys, BoxOK H W x :=
        fun x hx => hall x (List.mem_cons_of_mem _ hx)
      obtain ⟨h1, h2, h3, h4, h5, h6⟩ := ih (by simp) hall'
      rw [boxSum_cons]
      unfold boxAdd
      dsimp only
      have hlen : ((b :: c :: ys).length : ℚ) = ((c :: ys).length : ℚ) + 1 := by
        push_cast [List.length_cons]
        ring
      rw [hlen]
      refine ⟨by linarith, by linarith, by nlinarith, by linarith, by linarith,
        by nlinarith⟩

/-- The coordinate-wise mean of a nonempty list of valid boxes is a valid
box: the invariant is convex. -/
theorem boxMean_ok (H W : ℕ) (l : List Box) (hne : l ≠ [])
    (hall : ∀ b ∈ l, BoxOK H W b) : BoxOK H W (boxMean l) := by
  obtain ⟨h1, h2, h3, h4, h5, h6⟩ := boxSum_ok H W l hne hall
  have hn : (0 : ℚ) < l.length := by
    cases l with
    | nil => exact absurd rfl hne
    | cons a t =>
      have : (0 : ℕ) < (a :: t).length := by simp
      exact_mod_cast this
  unfold BoxOK boxMean
  dsimp only
  refine ⟨div_nonneg h1 hn.le, (div_lt_div_right hn).mpr h2,
    (div_le_iff₀ hn).mpr (by linarith), div_nonneg h4 hn.le,
    (div_lt_div_right hn).mpr h5, (div_le_iff₀ hn).mpr (by linarith)⟩

/-- The in-place smoothing loop preserves validity of every box. -/
theorem smoothUpTo_all_ok (H W T : ℕ) (hT : 0 < T) (boxes : List Box)
    (hall : ∀ b ∈ boxes, BoxOK H W b) :
    ∀ j, j ≤ boxes.length → ∀ b ∈ smoothUpTo boxes T j, BoxOK H W b := by
  intro j
  induction j with
  | zero => intro _; exact hall
  | succ j ih =>
    intro hj b hb
    unfold smoothUpTo at hb
    rw [List.range_succ, List.foldl_append, List.foldl_cons, List.foldl_nil] at hb
    have hb' : b ∈ smoothStep T (smoothUpTo boxes T j) j := hb
    unfold smoothStep at hb'
    rcases List.mem_or_eq_of_mem_set hb' with h | h
    · exact ih (by omega) b h
    · subst h
      have hwpos : 0 < (windowAt (smoothUpTo boxes T j) j T).length :=
        windowAt_length_pos _ j T hT (by rw [length_smoothUpTo]; omega)
      exact boxMean_ok H W _ (List.ne_nil_of_length_pos hwpos)
        (fun x hx => ih (by omega) x (mem_windowAt _ j T x hx))

theorem get_smoothened_boxes_all_ok (H W T : ℕ) (hT : 0 < T)
    (boxes : List Box) (hall : ∀ b ∈ boxes, BoxOK H W b) :
    ∀ b ∈ get_smoothened_boxes boxes T, BoxOK H W b :=
  smoothUpTo_all_ok H W T hT boxes hall boxes.length (Nat.le_refl _)

/-- C9 (amended): every Face Box produced by the DETECTION strategies
(per-frame, interval, static — manual override disabled) satisfies the
invariant: given nonnegative pads and a detector returning in-bounds,
nondegenerate rectangles on frames of uniform size `H × W`, every result of
`detect_faces` has coordinates within the frame bounds with `x2 > x1` and
`y2 > y1` — through padding/clamping, strategy expansion, and temporal
smoothing alike.  The manual override box, by contrast, is used exactly as
supplied, with no clamping or validation, and can violate the invariant
(see the counterexample). -/
theorem localizer_box_invariant (det : Img → Option DetRect) (p : DetectParams)
    (frames : List Img) (results : List FaceResult) (H W : ℕ)
    (hmanual : p.box.y1 = -1)
    (hp1 : 0 ≤ p.pads.pady1) (hp2 : 0 ≤ p.pads.pady2)
    (hp3 : 0 ≤ p.pads.padx1) (hp4 : 0 ≤ p.pads.padx2)
    (hdim : ∀ f ∈ frames, f.h = H ∧ f.w = W)
    (hdet : ∀ f ∈ frames, ∀ r : DetRect, det f = some r →
      0 ≤ r.x1 ∧ r.x1 < r.x2 ∧ r.x2 ≤ (f.w : ℤ) ∧
        0 ≤ r.y1 ∧ r.y1 < r.y2 ∧ r.y2 ≤ (f.h : ℤ))
    (hok : detect_faces det p frames = .ok results) :
    ∀ res ∈ results, 0 ≤ res.x1 ∧ res.x1 < res.x2 ∧ res.x2 ≤ (W : ℚ) ∧
      0 ≤ res.y1 ∧ res.y1 < res.y2 ∧ res.y2 ≤ (H : ℚ) := by
  unfold detect_faces at hok
  rw [if_neg (by rw [hmanual]; exact fun hc => hc rfl)] at hok
  dsimp only at hok
  by_cases hany : ((framesToDetect frames p.static p.everyN).map det).any
      (fun r => r.isNone) = true
  · rw [if_pos hany] at hok
    simp at hok
  · rw [if_neg hany] at hok
    injection hok with hres
    subst hres
    intro res hres2
    obtain ⟨fb, hfb, rfl⟩ := List.mem_map.mp hres2
    have hfbz := List.of_mem_zip hfb
    have hne : frames ≠ [] := List.ne_nil_of_mem hfbz.1
    have hanyf := Bool.not_eq_true _ |>.mp hany
    have hnone : ∀ r ∈ (framesToDetect frames p.static p.everyN).map det,
        r.isNone = false := by
      intro r hr
      have hfalse := List.any_eq_false.mp hanyf r hr
      revert hfalse
      cases r <;> simp
    have hdetected : ∀ b ∈ (((framesToDetect frames p.static p.everyN).map det).zip
        (framesToDetect frames p.static p.everyN)).map
        (fun pr => clampRect pr.2 p.pads (pr.1.getD default)),
        BoxOK H W b := by
      intro b hb
      obtain ⟨pr, hpr, rfl⟩ := List.mem_map.mp hb
      obtain ⟨hfst, hsnd⟩ := mem_zip_map det _ pr hpr
      have hmemf : pr.2 ∈ frames :=
        framesToDetect_mem frames p.static p.everyN pr.2 hsnd
      obtain ⟨hH, hW⟩ := hdim pr.2 hmemf
      have hprin : pr.1 ∈ (framesToDetect frames p.static p.everyN).map det :=
        (List.of_mem_zip hpr).1
      have hnn := hnone pr.1 hprin
      obtain ⟨rect, hrect⟩ : ∃ rect, det pr.2 = some rect := by
        rw [hfst] at hnn
        revert hnn
        cases det pr.2 with
        | none => intro hc; cases hc
        | some rect => intro _; exact ⟨rect, rfl⟩
      have hgd : pr.1.getD default = rect := by
        rw [hfst, hrect]
        rfl
      rw [hgd]
      obtain ⟨d1, d2, d3, d4, d5, d6⟩ := hdet pr.2 hmemf rect hrect
      have hcl := clampRect_boxOK pr.2 p.pads rect hp1 hp2 hp3 hp4 d1 d4 d2 d5 d3 d6
      rw [hH, hW] at hcl
      exact hcl
    have hdne : (((framesToDetect frames p.static p.everyN).map det).zip
        (framesToDetect frames p.static p.everyN)).map
        (fun pr => clampRect pr.2 p.pads (pr.1.getD default)) ≠ [] := by
      have htdne := framesToDetect_ne_nil frames p.static p.everyN hne
      intro hc
      rw [List.map_eq_nil_iff] at hc
      have hlen := congrArg List.length hc
      rw [List.length_zip, List.length_map, Nat.min_self] at hlen
      exact htdne (List.eq_nil_of_length_eq_zero hlen)
    have hexp : ∀ b ∈ expandBoxes frames.length p.static p.everyN
        ((((framesToDetect frames p.static p.everyN).map det).zip
          (framesToDetect frames p.static p.everyN)).map
          (fun pr => clampRect pr.2 p.pads (pr.1.getD default))),
        BoxOK H W b :=
      fun b hb => hdetected b
        (expandBoxes_mem frames.length p.static p.everyN _ hdne b hb)
    have hsm : ∀ b ∈ (if ¬ p.nosmooth ∧ ¬ p.static then
        get_smoothened_boxes (expandBoxes frames.length p.static p.everyN
          ((((framesToDetect frames p.static p.everyN).map det).zip
            (framesToDetect frames p.static p.everyN)).map
            (fun pr => clampRect pr.2 p.pads (pr.1.getD default)))) 5
        else expandBoxes frames.length p.static p.everyN
          ((((framesToDetect frames p.static p.everyN).map det).zip
            (framesToDetect frames p.static p.everyN)).map
            (fun pr => clampRect pr.2 p.pads (pr.1.getD default)))),
        BoxOK H W b := by
      split
      · exact get_smoothened_boxes_all_ok H W 5 (by omega) _ hexp
      · exact hexp
    have hbox := hsm fb.2 hfbz.2
    unfold BoxOK at hbox
    exact hbox

/-- C9 witness: static-mode detection of `okDet`'s rectangle (1,1)-(3,3) on
the 8×8 frame with default pads `[0,20,0,0]`: the run succeeds and every
produced box satisfies the invariant. -/
theorem localizer_box_invariant_witness :
    (staticDetect.box.y1 = -1 ∧ 0 ≤ staticDetect.pads.pady1 ∧
      0 ≤ staticDetect.pads.pady2 ∧ 0 ≤ staticDetect.pads.padx1 ∧
      0 ≤ staticDetect.pads.padx2 ∧
      detect_faces okDet staticDetect [testImg] = .ok okResults) ∧
      ∀ res ∈ okResults, 0 ≤ res.x1 ∧ res.x1 < res.x2 ∧ res.x2 ≤ ((8 : ℕ) : ℚ) ∧
        0 ≤ res.y1 ∧ res.y1 < res.y2 ∧ res.y2 ≤ ((8 : ℕ) : ℚ) :=
  ⟨⟨by decide, by decide, by decide, by decide, by decide, rfl⟩,
    localizer_box_invariant okDet staticDetect [testImg] okResults 8 8
      (by decide) (by decide) (by decide) (by decide) (by decide)
      (fun f hf => by
        rw [List.mem_singleton.mp hf]
        exact ⟨rfl, rfl⟩)
      (fun f hf r hr => by
        have hfe := List.mem_singleton.mp hf
        subst hfe
        have hr2 : (⟨1, 1, 3, 3⟩ : DetRect) = r := by
          injection hr
        rw [← hr2]
        exact ⟨by decide, by decide, by decide, by decide, by decide, by decide⟩)
      rfl⟩

/-- C9 counterexample: with the manual override box
`[y1, y2, x1, x2] = [2, 1, 5, 3]` the localizer returns the supplied
coordinates exactly as given — no clamping and no validation — and the
produced box violates the invariant: `y2 > y1` and `x2 > x1` both fail. -/
theorem manual_box_counterexample :
    (detect_faces okDet manualDetect [testImg]).map
        (fun rs => rs.map FaceResult.coords) = .ok [((2 : ℚ), 1, 5, 3)] ∧
      ¬ ((2 : ℚ) < 1) ∧ ¬ ((5 : ℚ) < 3) :=
  ⟨rfl, by decide, by decide⟩

end Wav2LipVideo
